import Mathlib

/-!
Shallow embedding of the rdflib-django triple-store engine
(src/rdflib_django/store.py and the literal codec of src/rdflib_django/fields.py).

Terms model rdflib identifiers (URI references, blank nodes, literals).
The relational schema used by store.py (the Statement / LiteralStatement rows
with a many-to-many context membership, and the Namespace rows) is not part of
the checked-in models module, which contains a different schema variant; that
schema is modelled from the spec, faithful to how store.py drives it.

Django identity note: `context_ref is self.default_context` in store.py is an
object-identity test.  `_get_context_ref` returns the very object
`self.default_context` exactly when the context argument is `None`; every other
path produces a fresh ORM instance, never identical to it.  The embedding
therefore renders that test as "the context argument is `none`".
-/

namespace RdflibDjango

/-- Modelled from the spec: an RDF term is a tagged union over URI reference,
blank node, and literal (lexical form, optional language, optional datatype);
absence of language/datatype is distinct from the empty string. -/
inductive Term where
  | uri (value : String)
  | bnode (value : String)
  | lit (value : String) (language : Option String) (datatype : Option String)
deriving DecidableEq

/-- Python truthiness of an rdflib term.  All three kinds subclass `unicode`,
whose truth value is "lexical form non-empty"; the `if o:` dispatch in store.py
depends on this. -/
def Term.truthy : Term → Bool
  | .uri v => v != ""
  | .bnode v => v != ""
  | .lit v _ _ => v != ""

/-- Test from `isinstance(o, Literal)` in `_get_query_sets_for_object`. -/
def Term.isLiteral : Term → Bool
  | .lit _ _ _ => true
  | _ => false

/-- The two physical statement collections: `models.Statement` (resource
objects) and `models.LiteralStatement` (literal objects). -/
inductive Coll where
  | resource
  | literal
deriving DecidableEq

/-- Embedding of `_get_query_sets_for_object`: for a bound object, Python
truthiness then an `isinstance(o, Literal)` test select one collection; a
falsy or unbound object yields both (resource collection first). -/
def querySetsForObject : Option Term → List Coll
  | some o =>
    if o.truthy then
      if o.isLiteral then [Coll.literal] else [Coll.resource]
    else [Coll.resource, Coll.literal]
  | none => [Coll.resource, Coll.literal]

/-- Collection receiving an added statement: `_get_query_sets_for_object(o)[0]`. -/
def addColl (o : Term) : Coll := (querySetsForObject (some o)).headD Coll.resource

/-- Modelled from the spec: a statement row (subject, predicate, object) with a
many-to-many set of context memberships, unique per (subject, predicate,
object) within its collection.  The Statement/LiteralStatement model classes
used by store.py are absent from the checked-in models module. -/
structure Stmt where
  subject : Term
  predicate : Term
  object : Term
  contextRefs : List Term
deriving DecidableEq

/-- Modelled from the spec: the relational state driven by store.py — the two
statement collections, the ContextRef rows (identifiers), and the Namespace
rows (prefix, uri). -/
structure Store where
  statements : List Stmt
  literalStatements : List Stmt
  contextRefs : List Term
  namespaces : List (String × String)
deriving DecidableEq

/-- `GLOBAL_CONTEXT = BNode("Global Context")` from store.py. -/
def GLOBAL_CONTEXT : Term := Term.bnode "Global Context"

/-- `DEFAULT_NAMESPACES` from store.py. -/
def DEFAULT_NAMESPACES : List (String × String) :=
  [ ("xml", "http://www.w3.org/XML/1998/namespace"),
    ("rdf", "http://www.w3.org/1999/02/22-rdf-syntax-ns#"),
    ("rdfs", "http://www.w3.org/2000/01/rdf-schema#") ]

/-- The pristine state of the single default store: no statements, only the
well-known global context, and the seeded default namespace bindings. -/
def initStore : Store :=
  { statements := []
    literalStatements := []
    contextRefs := [GLOBAL_CONTEXT]
    namespaces := DEFAULT_NAMESPACES }

/-- Identifier of the ContextRef used for a context argument:
`None` resolves to the default (global) context. -/
def resolveCtxId : Option Term → Term
  | none => GLOBAL_CONTEXT
  | some t => t

/-- Row equality filter on (subject, predicate, object), as produced by the
successive `filter(subject=s)`, `filter(predicate=p)`, `filter(object=o)`
calls of `_filter_query_sets` with all three bound. -/
def stmtMatchesSPO (s p o : Term) (r : Stmt) : Bool :=
  r.subject == s && r.predicate == p && r.object == o

/-- Update of the first row satisfying the predicate, leaving the rest alone
(the row `get_or_create` returns and `add` then mutates). -/
def updateFirst (m : Stmt → Bool) (f : Stmt → Stmt) : List Stmt → List Stmt
  | [] => []
  | r :: rest => if m r then f r :: rest else r :: updateFirst m f rest

/-- Membership insertion of `add`: `if context_ref not in statement.context_refs.all():
statement.context_refs.add(context_ref)`. -/
def addCtx (c : Term) (r : Stmt) : Stmt :=
  if r.contextRefs.contains c then r else { r with contextRefs := r.contextRefs ++ [c] }

/-- Statement part of `DjangoStore.add`: `get_or_create` on (subject,
predicate, object) in the dispatched collection, then context membership
insertion on the resulting row. -/
def addToRows (s p o c : Term) (rows : List Stmt) : List Stmt :=
  if rows.any (stmtMatchesSPO s p o) then
    updateFirst (stmtMatchesSPO s p o) (addCtx c) rows
  else
    rows ++ [{ subject := s, predicate := p, object := o, contextRefs := [c] }]

/-- Embedding of `DjangoStore.add((s, p, o), context)`: lazily creates the
ContextRef (`_get_or_create_context_ref`), creates at most one statement row
per (s, p, o) in the collection `_get_query_sets_for_object(o)[0]`, and adds
the context membership. -/
def Store.add (σ : Store) (s p o : Term) (c : Option Term) : Store :=
  let cref := resolveCtxId c
  let σ1 :=
    match c with
    | none => σ
    | some t =>
      if σ.contextRefs.contains t then σ
      else { σ with contextRefs := σ.contextRefs ++ [t] }
  match addColl o with
  | Coll.resource => { σ1 with statements := addToRows s p o cref σ1.statements }
  | Coll.literal => { σ1 with literalStatements := addToRows s p o cref σ1.literalStatements }

/-- A triple pattern: each component bound or a wildcard. -/
structure Pat where
  s : Option Term
  p : Option Term
  o : Option Term
deriving DecidableEq

/-- A row survives the bound-field filters of `_filter_query_sets`. -/
def matchesPat (pat : Pat) (r : Stmt) : Bool :=
  (match pat.s with | none => true | some x => r.subject == x) &&
  (match pat.p with | none => true | some x => r.predicate == x) &&
  (match pat.o with | none => true | some x => r.object == x)

/-- Embedding of `_get_context_ref`: `None` yields the default context; a
bound context resolves to its ContextRef row or raises `DoesNotExist`
(rendered as `none`). -/
def Store.getContextRef (σ : Store) (c : Option Term) : Option Term :=
  match c with
  | none => some GLOBAL_CONTEXT
  | some t => if σ.contextRefs.contains t then some t else none

/-- Context filter of `_filter_query_sets`: skipped exactly when the resolved
ref is identical to the default context, that is when the context argument was
`None`; otherwise rows are narrowed to members of the context. -/
def ctxFilterOK (c : Option Term) (cref : Term) (r : Stmt) : Bool :=
  c.isNone || r.contextRefs.contains cref

/-- Per-row effect of `DjangoStore.remove` on a searched collection: a row
passing the filters loses the membership, and is deleted when the context
argument was `None` (the default-context identity test) or when its membership
set became empty. -/
def removeStep (pat : Pat) (c : Option Term) (cref : Term) (r : Stmt) : Option Stmt :=
  if matchesPat pat r && ctxFilterOK c cref r then
    let r1 : Stmt := { r with contextRefs := r.contextRefs.filter (fun x => x != cref) }
    if c.isNone || r1.contextRefs.isEmpty then none else some r1
  else some r

/-- Embedding of `DjangoStore.remove((s, p, o), context)`: a missing bound
context is caught (`ContextRef.DoesNotExist`) and the call is a no-op;
otherwise the dispatched collections are filtered and each matching row is
de-associated or deleted. -/
def Store.remove (σ : Store) (pat : Pat) (c : Option Term) : Store :=
  match σ.getContextRef c with
  | none => σ
  | some cref =>
    let colls := querySetsForObject pat.o
    { σ with
      statements :=
        if colls.contains Coll.resource then σ.statements.filterMap (removeStep pat c cref)
        else σ.statements
      literalStatements :=
        if colls.contains Coll.literal then σ.literalStatements.filterMap (removeStep pat c cref)
        else σ.literalStatements }

/-- Rows of one collection surviving all filters of `_filter_query_sets`. -/
def matchRows (pat : Pat) (c : Option Term) (cref : Term) (rows : List Stmt) : List Stmt :=
  rows.filter (fun r => matchesPat pat r && ctxFilterOK c cref r)

/-- A triple as yielded by `Statement.as_triple()`. -/
abbrev Triple := Term × Term × Term

/-- Projection `as_triple` of a statement row. -/
def spo (r : Stmt) : Triple := (r.subject, r.predicate, r.object)

/-- Embedding of `DjangoStore.triples((s, p, o), context)`.  The generator
resolves the context without catching `DoesNotExist`, so iterating it with an
absent bound context raises (rendered as `none`); otherwise it chains the
matching rows of the dispatched collections, resource matches first. -/
def Store.triples (σ : Store) (pat : Pat) (c : Option Term) : Option (List Triple) :=
  match σ.getContextRef c with
  | none => none
  | some cref =>
    let colls := querySetsForObject pat.o
    let resRows := if colls.contains Coll.resource then matchRows pat c cref σ.statements else []
    let litRows := if colls.contains Coll.literal then matchRows pat c cref σ.literalStatements else []
    some ((resRows ++ litRows).map spo)

/-- Embedding of `DjangoStore.__len__(context)`: resolves the context without
catching `DoesNotExist` (absent bound context raises, rendered as `none`),
then sums the row counts of both collections, context-filtered unless the
context argument was `None`. -/
def Store.len (σ : Store) (c : Option Term) : Option Nat :=
  match σ.getContextRef c with
  | none => none
  | some cref =>
    let count := fun (rows : List Stmt) =>
      (if c.isNone then rows else rows.filter (fun r => r.contextRefs.contains cref)).length
    some (count σ.statements + count σ.literalStatements)

/-- Embedding of `DjangoStore.contexts(triple=None)`: yields the identifiers
of all ContextRef rows; the triple argument is never inspected. -/
def Store.contexts (σ : Store) (_tripleOpt : Option Triple) : List Term :=
  σ.contextRefs

/-- Embedding of `DjangoStore.bind(prefix, namespace)`.  A collision of either
component with a default namespace is a silent no-op.  Otherwise
`Namespace(prefix=..., uri=...).save()` runs: the prefix is the primary key,
so Django updates an existing row with that prefix in place, and raises
`IntegrityError` exactly when a different row already holds the uri; the
handler then deletes the rows holding the prefix or the uri and inserts the
pair. -/
def Store.bind (σ : Store) (pfx uri : String) : Store :=
  if DEFAULT_NAMESPACES.any (fun ns => ns.1 == pfx || ns.2 == uri) then σ
  else if σ.namespaces.any (fun ns => ns.2 == uri && ns.1 != pfx) then
    { σ with namespaces :=
        (σ.namespaces.filter (fun ns => ns.1 != pfx && ns.2 != uri)) ++ [(pfx, uri)] }
  else if σ.namespaces.any (fun ns => ns.1 == pfx) then
    { σ with namespaces := σ.namespaces.map (fun ns => if ns.1 == pfx then (pfx, uri) else ns) }
  else
    { σ with namespaces := σ.namespaces ++ [(pfx, uri)] }

/-- Embedding of `DjangoStore.namespace(prefix)`: the uri bound to the prefix,
or the not-found sentinel `None`. -/
def Store.namespaceOf (σ : Store) (pfx : String) : Option String :=
  (σ.namespaces.find? (fun ns => ns.1 == pfx)).map (fun ns => ns.2)

/-- Embedding of `DjangoStore.prefix(namespace)`: the prefix bound to the uri,
or the not-found sentinel `None`. -/
def Store.prefixOf (σ : Store) (uri : String) : Option String :=
  (σ.namespaces.find? (fun ns => ns.2 == uri)).map (fun ns => ns.1)

/-- Presence of a (subject, predicate, object) row in either collection. -/
def Store.containsTriple (σ : Store) (s p o : Term) : Bool :=
  (σ.statements ++ σ.literalStatements).any (stmtMatchesSPO s p o)

/-- Fully-bound pattern for a triple. -/
def exactPat (s p o : Term) : Pat := ⟨some s, some p, some o⟩

/-- Folding `add` over a list of triples into one context. -/
def addAll (ts : List Triple) (c : Option Term) (σ : Store) : Store :=
  ts.foldl (fun acc t => acc.add t.1 t.2.1 t.2.2 c) σ

/-- A triple agrees with the bound fields of a pattern. -/
def patMatchesTriple (pat : Pat) (t : Triple) : Bool :=
  (match pat.s with | none => true | some x => t.1 == x) &&
  (match pat.p with | none => true | some x => t.2.1 == x) &&
  (match pat.o with | none => true | some x => t.2.2 == x)

/-- The rows of one of the two physical collections. -/
def collRows (σ : Store) : Coll → List Stmt
  | Coll.resource => σ.statements
  | Coll.literal => σ.literalStatements

/-- Scenario state of the context-isolation property: one triple added
independently to the default context and to two named contexts. -/
def tripleAddedEverywhere (s p o c1 c2 : Term) : Store :=
  ((initStore.add s p o none).add s p o (some c1)).add s p o (some c2)

/-- Each statement row sits in the collection `add` dispatches its object to;
every state reachable through `add` satisfies this. -/
def Placed (σ : Store) : Prop :=
  (∀ r ∈ σ.statements, addColl r.object = Coll.resource) ∧
  (∀ r ∈ σ.literalStatements, addColl r.object = Coll.literal)

instance (σ : Store) : Decidable (Placed σ) :=
  inferInstanceAs (Decidable ((∀ r ∈ σ.statements, addColl r.object = Coll.resource) ∧
    (∀ r ∈ σ.literalStatements, addColl r.object = Coll.literal)))

/-- Relational uniqueness of the Namespace table: the prefix is the primary
key and the uri column is unique. -/
def NsInv (σ : Store) : Prop :=
  (σ.namespaces.map Prod.fst).Nodup ∧ (σ.namespaces.map Prod.snd).Nodup

instance (σ : Store) : Decidable (NsInv σ) :=
  inferInstanceAs (Decidable ((σ.namespaces.map Prod.fst).Nodup ∧
    (σ.namespaces.map Prod.snd).Nodup))

end RdflibDjango

namespace RdflibDjango

/-!
Literal codec of fields.py (`LiteralField.get_prep_value` / `to_python`).
Python strings are modelled as lists of characters.
-/

/-- An rdflib literal at the storage boundary of `LiteralField`: lexical form,
optional language tag, optional datatype uri, each a Python string. -/
structure PyLiteral where
  lexical : List Char
  language : Option (List Char)
  datatype : Option (List Char)
deriving DecidableEq

/-- Python `x or ""` on an optional string. -/
def pyOr : Option (List Char) → List Char
  | none => []
  | some s => s

/-- Python `s or None` on a string. -/
def orNone (s : List Char) : Option (List Char) :=
  if s = [] then none else some s

/-- Embedding of `LiteralField.get_prep_value`:
`unicode(value) + "^^" + (value.language or "") + "^^" + (value.datatype or "")`. -/
def encodeLiteral (l : PyLiteral) : List Char :=
  l.lexical ++ ['^', '^'] ++ pyOr l.language ++ ['^', '^'] ++ pyOr l.datatype

/-- Embedding of Python `value.split("^^")`: left-to-right, non-overlapping
splitting on two consecutive carets. -/
def split2 : List Char → List (List Char)
  | [] => [[]]
  | [a] => [[a]]
  | a :: b :: rest =>
    if a = '^' ∧ b = '^' then [] :: split2 rest
    else
      match split2 (b :: rest) with
      | [] => [[a]]
      | h :: t => (a :: h) :: t

/-- Embedding of `LiteralField.to_python`: split on `"^^"`, require exactly
three parts (else `ValueError`, rendered as `none`), then
`Literal(parts[0], parts[1] or None, parts[2] or None)`. -/
def decodeLiteral (enc : List Char) : Option PyLiteral :=
  match split2 enc with
  | [v, l, d] => some { lexical := v, language := orNone l, datatype := orNone d }
  | _ => none

/-- A string free of the caret character used by the separator. -/
def caretFree (s : List Char) : Bool := s.all (fun ch => ch != '^')

/-- An optional string that survives the codec: absent, or non-empty and
caret-free. -/
def goodPiece : Option (List Char) → Bool
  | none => true
  | some s => caretFree s && !s.isEmpty

end RdflibDjango

namespace RdflibDjango

/-! Basic bridging lemmas. -/

lemma addColl_eq (o : Term) :
    addColl o = if o.truthy && o.isLiteral then Coll.literal else Coll.resource := by
  cases h1 : o.truthy <;> cases h2 : o.isLiteral <;>
    simp [addColl, querySetsForObject, h1, h2]

lemma stmtMatchesSPO_iff (s p o : Term) (r : Stmt) :
    stmtMatchesSPO s p o r = true ↔ r.subject = s ∧ r.predicate = p ∧ r.object = o := by
  simp [stmtMatchesSPO, and_assoc]

lemma spo_addCtx (c : Term) (r : Stmt) : spo (addCtx c r) = spo r := by
  unfold addCtx; split <;> rfl

lemma stmtMatchesSPO_addCtx (s p o c : Term) (r : Stmt) :
    stmtMatchesSPO s p o (addCtx c r) = stmtMatchesSPO s p o r := by
  unfold addCtx; split <;> rfl

lemma contains_addCtx_self (c : Term) (r : Stmt) :
    (addCtx c r).contextRefs.contains c = true := by
  unfold addCtx; split
  · assumption
  · simp

lemma contains_addCtx_mono (c x : Term) (r : Stmt) (h : r.contextRefs.contains x = true) :
    (addCtx c r).contextRefs.contains x = true := by
  unfold addCtx; split
  · exact h
  · simp_all

lemma addCtx_idem (c : Term) (r : Stmt) : addCtx c (addCtx c r) = addCtx c r := by
  by_cases h : c ∈ r.contextRefs
  · simp [addCtx, h]
  · simp [addCtx, h]

lemma updateFirst_idem (m : Stmt → Bool) (f : Stmt → Stmt)
    (hm : ∀ r, m r = true → m (f r) = true)
    (hf : ∀ r, m r = true → f (f r) = f r) :
    ∀ rows, updateFirst m f (updateFirst m f rows) = updateFirst m f rows
  | [] => rfl
  | r :: rest => by
    by_cases h : m r = true
    · simp [updateFirst, h, hm r h, hf r h]
    · simp [updateFirst, h, updateFirst_idem m f hm hf rest]

lemma any_updateFirst (m : Stmt → Bool) (f : Stmt → Stmt)
    (hm : ∀ r, m r = true → m (f r) = true) :
    ∀ rows : List Stmt, rows.any m = true → (updateFirst m f rows).any m = true
  | [] => by simp
  | r :: rest => by
    intro h
    by_cases hr : m r = true
    · simp [updateFirst, hr, hm r hr]
    · have hrest : rest.any m = true := by
        simp only [List.any_cons] at h
        cases Bool.or_eq_true_iff.mp h with
        | inl h1 => exact absurd h1 hr
        | inr h1 => exact h1
      simp [updateFirst, hr, any_updateFirst m f hm rest hrest]

lemma updateFirst_append_left (m : Stmt → Bool) (f : Stmt → Stmt) :
    ∀ l1 l2 : List Stmt, l1.any m = false →
      updateFirst m f (l1 ++ l2) = l1 ++ updateFirst m f l2
  | [], l2, _ => rfl
  | r :: rest, l2, h => by
    simp only [List.any_cons, Bool.or_eq_false_iff] at h
    simp [updateFirst, h.1, updateFirst_append_left m f rest l2 h.2]

lemma any_addToRows (s p o c : Term) (rows : List Stmt) :
    (addToRows s p o c rows).any (stmtMatchesSPO s p o) = true := by
  by_cases h : rows.any (stmtMatchesSPO s p o) = true
  · simp only [addToRows, h, if_true]
    exact any_updateFirst _ _
      (fun r hr => by rw [stmtMatchesSPO_addCtx]; exact hr) rows h
  · simp [addToRows, h, stmtMatchesSPO]

lemma addToRows_idem (s p o c : Term) (rows : List Stmt) :
    addToRows s p o c (addToRows s p o c rows) = addToRows s p o c rows := by
  have hm : ∀ r, stmtMatchesSPO s p o r = true → stmtMatchesSPO s p o (addCtx c r) = true :=
    fun r hr => by rw [stmtMatchesSPO_addCtx]; exact hr
  by_cases h : rows.any (stmtMatchesSPO s p o) = true
  · have h2 : addToRows s p o c rows = updateFirst (stmtMatchesSPO s p o) (addCtx c) rows := by
      unfold addToRows; rw [if_pos h]
    have h3 : (updateFirst (stmtMatchesSPO s p o) (addCtx c) rows).any
        (stmtMatchesSPO s p o) = true := any_updateFirst _ _ hm rows h
    rw [h2]
    unfold addToRows
    rw [if_pos h3]
    exact updateFirst_idem _ _ hm (fun r _ => addCtx_idem c r) _
  · have hnew : stmtMatchesSPO s p o (Stmt.mk s p o [c]) = true := by
      simp [stmtMatchesSPO]
    have h2 : addToRows s p o c rows = rows ++ [Stmt.mk s p o [c]] := by
      unfold addToRows; rw [if_neg h]
    have hfalse : rows.any (stmtMatchesSPO s p o) = false := by
      revert h; cases rows.any (stmtMatchesSPO s p o) <;> simp
    have h3 : (rows ++ [Stmt.mk s p o [c]]).any (stmtMatchesSPO s p o) = true := by
      simp [List.any_append, hnew]
    rw [h2]
    unfold addToRows
    rw [if_pos h3]
    rw [updateFirst_append_left _ _ rows _ hfalse]
    simp [updateFirst, hnew, addCtx]

/-- C1: Idempotent add — for all identifier terms s, p, o and every context
argument c (bound or None), a second `add((s, p, o), c)` with the same
arguments leaves the stored state unchanged, hence `len` is unchanged after
the second call for every context argument. -/
theorem add_twice_eq_add_once (σ : Store) (s p o : Term) (c : Option Term) :
    (σ.add s p o c).add s p o c = σ.add s p o c ∧
    ∀ q : Option Term, ((σ.add s p o c).add s p o c).len q = (σ.add s p o c).len q := by
  have hmain : (σ.add s p o c).add s p o c = σ.add s p o c := by
    cases c with
    | none =>
      cases hcol : addColl o with
      | resource => simp [Store.add, hcol, addToRows_idem]
      | literal => simp [Store.add, hcol, addToRows_idem]
    | some t =>
      cases hcol : addColl o with
      | resource =>
        by_cases hct : t ∈ σ.contextRefs
        · simp [Store.add, hcol, hct, addToRows_idem]
        · simp [Store.add, hcol, hct, addToRows_idem]
      | literal =>
        by_cases hct : t ∈ σ.contextRefs
        · simp [Store.add, hcol, hct, addToRows_idem]
        · simp [Store.add, hcol, hct, addToRows_idem]
  exact ⟨hmain, fun q => by rw [hmain]⟩

end RdflibDjango

namespace RdflibDjango

/-! Projection lemmas for `Store.add`. -/

lemma contextRefs_add_none (σ : Store) (s p o : Term) :
    (σ.add s p o none).contextRefs = σ.contextRefs := by
  cases hcol : addColl o <;> simp [Store.add, hcol]

lemma contextRefs_add_some (σ : Store) (s p o t : Term) :
    (σ.add s p o (some t)).contextRefs =
      if t ∈ σ.contextRefs then σ.contextRefs else σ.contextRefs ++ [t] := by
  cases hcol : addColl o <;> by_cases h : t ∈ σ.contextRefs <;> simp [Store.add, hcol, h]

lemma mem_ins_self (c : Term) (l : List Term) : c ∈ (if c ∈ l then l else l ++ [c]) := by
  by_cases h : c ∈ l <;> simp [h]

lemma mem_ins_mono (c x : Term) (l : List Term) (h : x ∈ l) :
    x ∈ (if c ∈ l then l else l ++ [c]) := by
  by_cases hc : c ∈ l <;> simp [hc, h]

lemma mem_contextRefs_add_self (σ : Store) (s p o t : Term) :
    t ∈ (σ.add s p o (some t)).contextRefs := by
  rw [contextRefs_add_some]; exact mem_ins_self t σ.contextRefs

lemma mem_contextRefs_add_mono (σ : Store) (s p o : Term) (c : Option Term) (x : Term)
    (h : x ∈ σ.contextRefs) : x ∈ (σ.add s p o c).contextRefs := by
  cases c with
  | none => rw [contextRefs_add_none]; exact h
  | some t => rw [contextRefs_add_some]; exact mem_ins_mono t x σ.contextRefs h

lemma statements_add (σ : Store) (s p o : Term) (c : Option Term) :
    (σ.add s p o c).statements =
      if addColl o = Coll.resource then addToRows s p o (resolveCtxId c) σ.statements
      else σ.statements := by
  cases c with
  | none => cases hcol : addColl o <;> simp [Store.add, hcol]
  | some t =>
    cases hcol : addColl o <;> by_cases h : t ∈ σ.contextRefs <;> simp [Store.add, hcol, h]

lemma literalStatements_add (σ : Store) (s p o : Term) (c : Option Term) :
    (σ.add s p o c).literalStatements =
      if addColl o = Coll.literal then addToRows s p o (resolveCtxId c) σ.literalStatements
      else σ.literalStatements := by
  cases c with
  | none => cases hcol : addColl o <;> simp [Store.add, hcol]
  | some t =>
    cases hcol : addColl o <;> by_cases h : t ∈ σ.contextRefs <;> simp [Store.add, hcol, h]

lemma addToRows_nil (s p o c : Term) : addToRows s p o c [] = [Stmt.mk s p o [c]] := by
  simp [addToRows]

lemma addToRows_single (s p o c : Term) (l : List Term) :
    addToRows s p o c [Stmt.mk s p o l] =
      [Stmt.mk s p o (if c ∈ l then l else l ++ [c])] := by
  have hm : stmtMatchesSPO s p o (Stmt.mk s p o l) = true := by simp [stmtMatchesSPO]
  unfold addToRows
  rw [if_pos (by simp [List.any_cons, hm])]
  by_cases h : c ∈ l <;> simp [updateFirst, hm, addCtx, h]

lemma len_none_formula (σ : Store) :
    σ.len none = some (σ.statements ++ σ.literalStatements).length := by
  unfold Store.len Store.getContextRef
  simp [List.length_append]

lemma len_single_row (σ : Store) (x : Stmt) (ci : Term)
    (hs : σ.statements ++ σ.literalStatements = [x])
    (hmemc : ci ∈ σ.contextRefs) (hmemL : ci ∈ x.contextRefs) :
    σ.len (some ci) = some 1 := by
  have hc : σ.contextRefs.contains ci = true := by simp [hmemc]
  have hx : x.contextRefs.contains ci = true := by simp [hmemL]
  simp only [Store.len, Store.getContextRef, hc, if_true, Option.isNone_some,
    Bool.false_eq_true, if_false, Option.some.injEq]
  rw [← List.length_append, ← List.filter_append, hs]
  simp [List.filter, hmemL]

end RdflibDjango

namespace RdflibDjango

lemma addToRows_single_exists (s p o c : Term) (l : List Term) :
    ∃ L, addToRows s p o c [Stmt.mk s p o l] = [Stmt.mk s p o L] ∧
      c ∈ L ∧ ∀ x ∈ l, x ∈ L :=
  ⟨if c ∈ l then l else l ++ [c], addToRows_single s p o c l,
    mem_ins_self c l, fun x hx => mem_ins_mono c x l hx⟩

/-- C3: Count correctness under multi-context membership — adding the same
triple (s, p, o) to three contexts increases the store-wide length (context
None) from 0 to exactly 1, never double-counting the shared triple, while
`len` bound to any one of those contexts also counts it once; `add` creates at
most one statement row per (s, p, o) per collection. -/
theorem multi_context_len_counts_once (s p o c1 c2 c3 : Term) :
    initStore.len none = some 0 ∧
    (((initStore.add s p o (some c1)).add s p o (some c2)).add s p o (some c3)).len none
      = some 1 ∧
    (((initStore.add s p o (some c1)).add s p o (some c2)).add s p o (some c3)).len (some c1)
      = some 1 ∧
    (((initStore.add s p o (some c1)).add s p o (some c2)).add s p o (some c3)).len (some c2)
      = some 1 ∧
    (((initStore.add s p o (some c1)).add s p o (some c2)).add s p o (some c3)).len (some c3)
      = some 1 := by
  have m1 : c1 ∈ (((initStore.add s p o (some c1)).add s p o (some c2)).add s p o
      (some c3)).contextRefs :=
    mem_contextRefs_add_mono _ _ _ _ _ _
      (mem_contextRefs_add_mono _ _ _ _ _ _ (mem_contextRefs_add_self _ _ _ _ _))
  have m2 : c2 ∈ (((initStore.add s p o (some c1)).add s p o (some c2)).add s p o
      (some c3)).contextRefs :=
    mem_contextRefs_add_mono _ _ _ _ _ _ (mem_contextRefs_add_self _ _ _ _ _)
  have m3 : c3 ∈ (((initStore.add s p o (some c1)).add s p o (some c2)).add s p o
      (some c3)).contextRefs :=
    mem_contextRefs_add_self _ _ _ _ _
  cases hcol : addColl o with
  | resource =>
    obtain ⟨L2, hL2, hc2, hmono2⟩ := addToRows_single_exists s p o c2 [c1]
    obtain ⟨L3, hL3, hc3, hmono3⟩ := addToRows_single_exists s p o c3 L2
    have e1 : (initStore.add s p o (some c1)).statements = [Stmt.mk s p o [c1]] := by
      simp [statements_add, hcol, initStore, resolveCtxId, addToRows_nil]
    have e2 : ((initStore.add s p o (some c1)).add s p o (some c2)).statements
        = [Stmt.mk s p o L2] := by
      simp [statements_add, hcol, resolveCtxId, initStore, addToRows_nil, hL2]
    have e3 : (((initStore.add s p o (some c1)).add s p o (some c2)).add s p o
        (some c3)).statements = [Stmt.mk s p o L3] := by
      simp [statements_add, hcol, resolveCtxId, initStore, addToRows_nil, hL2, hL3]
    have f3 : (((initStore.add s p o (some c1)).add s p o (some c2)).add s p o
        (some c3)).literalStatements = [] := by
      simp [literalStatements_add, hcol, initStore]
    have hrows : (((initStore.add s p o (some c1)).add s p o (some c2)).add s p o
          (some c3)).statements ++
        (((initStore.add s p o (some c1)).add s p o (some c2)).add s p o
          (some c3)).literalStatements = [Stmt.mk s p o L3] := by
      rw [e3, f3]; simp
    have hL1 : c1 ∈ L3 := hmono3 c1 (hmono2 c1 (by simp))
    have hLc2 : c2 ∈ L3 := hmono3 c2 hc2
    refine ⟨by decide, ?_, ?_, ?_, ?_⟩
    · rw [len_none_formula, hrows]; simp
    · exact len_single_row _ _ _ hrows m1 hL1
    · exact len_single_row _ _ _ hrows m2 hLc2
    · exact len_single_row _ _ _ hrows m3 hc3
  | literal =>
    obtain ⟨L2, hL2, hc2, hmono2⟩ := addToRows_single_exists s p o c2 [c1]
    obtain ⟨L3, hL3, hc3, hmono3⟩ := addToRows_single_exists s p o c3 L2
    have e1 : (initStore.add s p o (some c1)).literalStatements = [Stmt.mk s p o [c1]] := by
      simp [literalStatements_add, hcol, initStore, resolveCtxId, addToRows_nil]
    have e2 : ((initStore.add s p o (some c1)).add s p o (some c2)).literalStatements
        = [Stmt.mk s p o L2] := by
      simp [literalStatements_add, hcol, resolveCtxId, initStore, addToRows_nil, hL2]
    have e3 : (((initStore.add s p o (some c1)).add s p o (some c2)).add s p o
        (some c3)).literalStatements = [Stmt.mk s p o L3] := by
      simp [literalStatements_add, hcol, resolveCtxId, initStore, addToRows_nil, hL2, hL3]
    have f3 : (((initStore.add s p o (some c1)).add s p o (some c2)).add s p o
        (some c3)).statements = [] := by
      simp [statements_add, hcol, initStore]
    have hrows : (((initStore.add s p o (some c1)).add s p o (some c2)).add s p o
          (some c3)).statements ++
        (((initStore.add s p o (some c1)).add s p o (some c2)).add s p o
          (some c3)).literalStatements = [Stmt.mk s p o L3] := by
      rw [e3, f3]; simp
    have hL1 : c1 ∈ L3 := hmono3 c1 (hmono2 c1 (by simp))
    have hLc2 : c2 ∈ L3 := hmono3 c2 hc2
    refine ⟨by decide, ?_, ?_, ?_, ?_⟩
    · rw [len_none_formula, hrows]; simp
    · exact len_single_row _ _ _ hrows m1 hL1
    · exact len_single_row _ _ _ hrows m2 hLc2
    · exact len_single_row _ _ _ hrows m3 hc3

end RdflibDjango

namespace RdflibDjango

lemma getContextRef_none (σ : Store) :
    σ.getContextRef none = some GLOBAL_CONTEXT := rfl

lemma getContextRef_some_of_mem (σ : Store) (t : Term) (h : t ∈ σ.contextRefs) :
    σ.getContextRef (some t) = some t := by
  simp [Store.getContextRef, h]

lemma contextRefs_remove (σ : Store) (pat : Pat) (c : Option Term) :
    (σ.remove pat c).contextRefs = σ.contextRefs := by
  unfold Store.remove; cases h : σ.getContextRef c <;> simp

lemma statements_remove_of_ctx (σ : Store) (pat : Pat) (c : Option Term) (cref : Term)
    (h : σ.getContextRef c = some cref) :
    (σ.remove pat c).statements =
      if (querySetsForObject pat.o).contains Coll.resource
      then σ.statements.filterMap (removeStep pat c cref) else σ.statements := by
  unfold Store.remove; rw [h]

lemma literalStatements_remove_of_ctx (σ : Store) (pat : Pat) (c : Option Term) (cref : Term)
    (h : σ.getContextRef c = some cref) :
    (σ.remove pat c).literalStatements =
      if (querySetsForObject pat.o).contains Coll.literal
      then σ.literalStatements.filterMap (removeStep pat c cref) else σ.literalStatements := by
  unfold Store.remove; rw [h]

lemma colls_res_of_addColl_res (o : Term) (h : addColl o = Coll.resource) :
    (querySetsForObject (some o)).contains Coll.resource = true := by
  rw [addColl_eq] at h
  cases ht : o.truthy <;> cases hl : o.isLiteral <;> simp_all [querySetsForObject]

lemma colls_lit_of_addColl_lit (o : Term) (h : addColl o = Coll.literal) :
    (querySetsForObject (some o)).contains Coll.literal = true := by
  rw [addColl_eq] at h
  cases ht : o.truthy <;> cases hl : o.isLiteral <;> simp_all [querySetsForObject]

lemma matchesPat_exactPat (s p o : Term) (r : Stmt) :
    matchesPat (exactPat s p o) r = stmtMatchesSPO s p o r := rfl

lemma exactPat_o (s p o : Term) : (exactPat s p o).o = some o := rfl

lemma len_zero_row (σ : Store) (x : Stmt) (ci : Term)
    (hs : σ.statements ++ σ.literalStatements = [x])
    (hmemc : ci ∈ σ.contextRefs) (hnot : ci ∉ x.contextRefs) :
    σ.len (some ci) = some 0 := by
  have hc : σ.contextRefs.contains ci = true := by simp [hmemc]
  simp only [Store.len, Store.getContextRef, hc, if_true, Option.isNone_some,
    Bool.false_eq_true, if_false, Option.some.injEq]
  rw [← List.length_append, ← List.filter_append, hs]
  simp [List.filter, hnot]

end RdflibDjango

namespace RdflibDjango

/-- C2: Context-isolated removal under the many-to-many strategy — a triple
added independently to the default context and to named contexts c1 and c2 is
still present after removal from c1 (which deletes only that membership, as
the per-context lengths show) and after removal from c2, and is fully gone
after removal via the default context, which deletes the row outright. -/
theorem remove_is_context_isolated (s p o c1 c2 : Term)
    (h12 : c1 ≠ c2) (h1g : c1 ≠ GLOBAL_CONTEXT) (h2g : c2 ≠ GLOBAL_CONTEXT) :
    ((tripleAddedEverywhere s p o c1 c2).remove (exactPat s p o)
        (some c1)).containsTriple s p o = true ∧
    (((tripleAddedEverywhere s p o c1 c2).remove (exactPat s p o) (some c1)).remove
        (exactPat s p o) (some c2)).containsTriple s p o = true ∧
    ((((tripleAddedEverywhere s p o c1 c2).remove (exactPat s p o) (some c1)).remove
        (exactPat s p o) (some c2)).remove (exactPat s p o) none).containsTriple s p o = false ∧
    ((tripleAddedEverywhere s p o c1 c2).remove (exactPat s p o) (some c1)).len (some c1)
      = some 0 ∧
    ((tripleAddedEverywhere s p o c1 c2).remove (exactPat s p o) (some c1)).len (some c2)
      = some 1 := by
  have hc2c1 : c2 ≠ c1 := Ne.symm h12
  have hGc1 : GLOBAL_CONTEXT ≠ c1 := Ne.symm h1g
  have hGc2 : GLOBAL_CONTEXT ≠ c2 := Ne.symm h2g
  have mc1 : c1 ∈ (tripleAddedEverywhere s p o c1 c2).contextRefs := by
    unfold tripleAddedEverywhere
    exact mem_contextRefs_add_mono _ _ _ _ _ _ (mem_contextRefs_add_self _ _ _ _ _)
  have mc2 : c2 ∈ (tripleAddedEverywhere s p o c1 c2).contextRefs := by
    unfold tripleAddedEverywhere
    exact mem_contextRefs_add_self _ _ _ _ _
  have hg1 : (tripleAddedEverywhere s p o c1 c2).getContextRef (some c1) = some c1 :=
    getContextRef_some_of_mem _ _ mc1
  have mrc1 : c1 ∈ ((tripleAddedEverywhere s p o c1 c2).remove (exactPat s p o)
      (some c1)).contextRefs := by rw [contextRefs_remove]; exact mc1
  have mrc2 : c2 ∈ ((tripleAddedEverywhere s p o c1 c2).remove (exactPat s p o)
      (some c1)).contextRefs := by rw [contextRefs_remove]; exact mc2
  have hg2 : ((tripleAddedEverywhere s p o c1 c2).remove (exactPat s p o)
      (some c1)).getContextRef (some c2) = some c2 := getContextRef_some_of_mem _ _ mrc2
  cases hcol : addColl o with
  | resource =>
    have hcr : (querySetsForObject (some o)).contains Coll.resource = true :=
      colls_res_of_addColl_res o hcol
    have hA : addToRows s p o c1 [Stmt.mk s p o [GLOBAL_CONTEXT]]
        = [Stmt.mk s p o [GLOBAL_CONTEXT, c1]] := by
      rw [addToRows_single]; simp [h1g]
    have hB : addToRows s p o c2 [Stmt.mk s p o [GLOBAL_CONTEXT, c1]]
        = [Stmt.mk s p o [GLOBAL_CONTEXT, c1, c2]] := by
      rw [addToRows_single]; simp [h2g, hc2c1]
    have e0 : (tripleAddedEverywhere s p o c1 c2).statements
        = [Stmt.mk s p o [GLOBAL_CONTEXT, c1, c2]] := by
      unfold tripleAddedEverywhere
      simp [statements_add, hcol, resolveCtxId, initStore, addToRows_nil, hA, hB]
    have e0l : (tripleAddedEverywhere s p o c1 c2).literalStatements = [] := by
      unfold tripleAddedEverywhere
      simp [literalStatements_add, hcol, initStore]
    have r1s : ((tripleAddedEverywhere s p o c1 c2).remove (exactPat s p o)
        (some c1)).statements = [Stmt.mk s p o [GLOBAL_CONTEXT, c2]] := by
      rw [statements_remove_of_ctx _ _ _ _ hg1, exactPat_o, if_pos hcr, e0]
      simp [List.filterMap, removeStep, matchesPat_exactPat, stmtMatchesSPO, ctxFilterOK,
        hGc1, hc2c1]
    have r1l : ((tripleAddedEverywhere s p o c1 c2).remove (exactPat s p o)
        (some c1)).literalStatements = [] := by
      rw [literalStatements_remove_of_ctx _ _ _ _ hg1, e0l]; simp
    have r2s : (((tripleAddedEverywhere s p o c1 c2).remove (exactPat s p o) (some c1)).remove
        (exactPat s p o) (some c2)).statements = [Stmt.mk s p o [GLOBAL_CONTEXT]] := by
      rw [statements_remove_of_ctx _ _ _ _ hg2, exactPat_o, if_pos hcr, r1s]
      simp [List.filterMap, removeStep, matchesPat_exactPat, stmtMatchesSPO, ctxFilterOK, hGc2]
    have r2l : (((tripleAddedEverywhere s p o c1 c2).remove (exactPat s p o) (some c1)).remove
        (exactPat s p o) (some c2)).literalStatements = [] := by
      rw [literalStatements_remove_of_ctx _ _ _ _ hg2, r1l]; simp
    have r3s : ((((tripleAddedEverywhere s p o c1 c2).remove (exactPat s p o)
        (some c1)).remove (exactPat s p o) (some c2)).remove (exactPat s p o)
        none).statements = [] := by
      rw [statements_remove_of_ctx _ _ _ _ (getContextRef_none _), exactPat_o, if_pos hcr, r2s]
      simp [List.filterMap, removeStep, matchesPat_exactPat, stmtMatchesSPO, ctxFilterOK]
    have r3l : ((((tripleAddedEverywhere s p o c1 c2).remove (exactPat s p o)
        (some c1)).remove (exactPat s p o) (some c2)).remove (exactPat s p o)
        none).literalStatements = [] := by
      rw [literalStatements_remove_of_ctx _ _ _ _ (getContextRef_none _), r2l]; simp
    refine ⟨?_, ?_, ?_, ?_, ?_⟩
    · simp [Store.containsTriple, r1s, r1l, stmtMatchesSPO]
    · simp [Store.containsTriple, r2s, r2l, stmtMatchesSPO]
    · simp [Store.containsTriple, r3s, r3l]
    · exact len_zero_row _ (Stmt.mk s p o [GLOBAL_CONTEXT, c2]) c1
        (by rw [r1s, r1l]; simp) mrc1 (by simp [h1g, h12])
    · exact len_single_row _ (Stmt.mk s p o [GLOBAL_CONTEXT, c2]) c2
        (by rw [r1s, r1l]; simp) mrc2 (by simp)
  | literal =>
    have hcl : (querySetsForObject (some o)).contains Coll.literal = true :=
      colls_lit_of_addColl_lit o hcol
    have hA : addToRows s p o c1 [Stmt.mk s p o [GLOBAL_CONTEXT]]
        = [Stmt.mk s p o [GLOBAL_CONTEXT, c1]] := by
      rw [addToRows_single]; simp [h1g]
    have hB : addToRows s p o c2 [Stmt.mk s p o [GLOBAL_CONTEXT, c1]]
        = [Stmt.mk s p o [GLOBAL_CONTEXT, c1, c2]] := by
      rw [addToRows_single]; simp [h2g, hc2c1]
    have e0 : (tripleAddedEverywhere s p o c1 c2).literalStatements
        = [Stmt.mk s p o [GLOBAL_CONTEXT, c1, c2]] := by
      unfold tripleAddedEverywhere
      simp [literalStatements_add, hcol, resolveCtxId, initStore, addToRows_nil, hA, hB]
    have e0l : (tripleAddedEverywhere s p o c1 c2).statements = [] := by
      unfold tripleAddedEverywhere
      simp [statements_add, hcol, initStore]
    have r1s : ((tripleAddedEverywhere s p o c1 c2).remove (exactPat s p o)
        (some c1)).literalStatements = [Stmt.mk s p o [GLOBAL_CONTEXT, c2]] := by
      rw [literalStatements_remove_of_ctx _ _ _ _ hg1, exactPat_o, if_pos hcl, e0]
      simp [List.filterMap, removeStep, matchesPat_exactPat, stmtMatchesSPO, ctxFilterOK,
        hGc1, hc2c1]
    have r1l : ((tripleAddedEverywhere s p o c1 c2).remove (exactPat s p o)
        (some c1)).statements = [] := by
      rw [statements_remove_of_ctx _ _ _ _ hg1, e0l]; simp
    have r2s : (((tripleAddedEverywhere s p o c1 c2).remove (exactPat s p o) (some c1)).remove
        (exactPat s p o) (some c2)).literalStatements = [Stmt.mk s p o [GLOBAL_CONTEXT]] := by
      rw [literalStatements_remove_of_ctx _ _ _ _ hg2, exactPat_o, if_pos hcl, r1s]
      simp [List.filterMap, removeStep, matchesPat_exactPat, stmtMatchesSPO, ctxFilterOK, hGc2]
    have r2l : (((tripleAddedEverywhere s p o c1 c2).remove (exactPat s p o) (some c1)).remove
        (exactPat s p o) (some c2)).statements = [] := by
      rw [statements_remove_of_ctx _ _ _ _ hg2, r1l]; simp
    have r3s : ((((tripleAddedEverywhere s p o c1 c2).remove (exactPat s p o)
        (some c1)).remove (exactPat s p o) (some c2)).remove (exactPat s p o)
        none).literalStatements = [] := by
      rw [literalStatements_remove_of_ctx _ _ _ _ (getContextRef_none _), exactPat_o, if_pos hcl, r2s]
      simp [List.filterMap, removeStep, matchesPat_exactPat, stmtMatchesSPO, ctxFilterOK]
    have r3l : ((((tripleAddedEverywhere s p o c1 c2).remove (exactPat s p o)
        (some c1)).remove (exactPat s p o) (some c2)).remove (exactPat s p o)
        none).statements = [] := by
      rw [statements_remove_of_ctx _ _ _ _ (getContextRef_none _), r2l]; simp
    refine ⟨?_, ?_, ?_, ?_, ?_⟩
    · simp [Store.containsTriple, r1s, r1l, stmtMatchesSPO]
    · simp [Store.containsTriple, r2s, r2l, stmtMatchesSPO]
    · simp [Store.containsTriple, r3s, r3l]
    · exact len_zero_row _ (Stmt.mk s p o [GLOBAL_CONTEXT, c2]) c1
        (by rw [r1s, r1l]; simp) mrc1 (by simp [h1g, h12])
    · exact len_single_row _ (Stmt.mk s p o [GLOBAL_CONTEXT, c2]) c2
        (by rw [r1s, r1l]; simp) mrc2 (by simp)

/-- Witness for C2 at concrete terms and contexts. -/
theorem remove_is_context_isolated_witness :
    ((tripleAddedEverywhere (Term.uri "s") (Term.uri "p") (Term.uri "o") (Term.uri "c1")
        (Term.uri "c2")).remove (exactPat (Term.uri "s") (Term.uri "p") (Term.uri "o"))
        (some (Term.uri "c1"))).containsTriple (Term.uri "s") (Term.uri "p") (Term.uri "o")
      = true ∧
    (((tripleAddedEverywhere (Term.uri "s") (Term.uri "p") (Term.uri "o") (Term.uri "c1")
        (Term.uri "c2")).remove (exactPat (Term.uri "s") (Term.uri "p") (Term.uri "o"))
        (some (Term.uri "c1"))).remove (exactPat (Term.uri "s") (Term.uri "p") (Term.uri "o"))
        (some (Term.uri "c2"))).containsTriple (Term.uri "s") (Term.uri "p") (Term.uri "o")
      = true ∧
    ((((tripleAddedEverywhere (Term.uri "s") (Term.uri "p") (Term.uri "o") (Term.uri "c1")
        (Term.uri "c2")).remove (exactPat (Term.uri "s") (Term.uri "p") (Term.uri "o"))
        (some (Term.uri "c1"))).remove (exactPat (Term.uri "s") (Term.uri "p") (Term.uri "o"))
        (some (Term.uri "c2"))).remove (exactPat (Term.uri "s") (Term.uri "p") (Term.uri "o"))
        none).containsTriple (Term.uri "s") (Term.uri "p") (Term.uri "o") = false ∧
    ((tripleAddedEverywhere (Term.uri "s") (Term.uri "p") (Term.uri "o") (Term.uri "c1")
        (Term.uri "c2")).remove (exactPat (Term.uri "s") (Term.uri "p") (Term.uri "o"))
        (some (Term.uri "c1"))).len (some (Term.uri "c1")) = some 0 ∧
    ((tripleAddedEverywhere (Term.uri "s") (Term.uri "p") (Term.uri "o") (Term.uri "c1")
        (Term.uri "c2")).remove (exactPat (Term.uri "s") (Term.uri "p") (Term.uri "o"))
        (some (Term.uri "c1"))).len (some (Term.uri "c2")) = some 1 :=
  remove_is_context_isolated (Term.uri "s") (Term.uri "p") (Term.uri "o") (Term.uri "c1")
    (Term.uri "c2") (by decide) (by decide) (by decide)

end RdflibDjango

namespace RdflibDjango

/-- C5 counterexample: the bound object `Literal("")` is a literal, yet both
collections are searched (Python truthiness of the empty lexical form defeats
the dispatch), refuting "only the literal-statement collection is searched". -/
theorem dispatch_empty_literal_counterexample :
    querySetsForObject (some (Term.lit "" none none)) = [Coll.resource, Coll.literal] ∧
    querySetsForObject (some (Term.lit "" none none)) ≠ [Coll.literal] := by decide

/-- C5 (amended): collection dispatch keys on Python truthiness — a bound
non-empty literal object searches only the literal collection, a bound
non-empty URI/blank-node object only the resource collection, and an unbound
or empty-lexical bound object searches both; `triples` accordingly ignores the
unsearched collection. -/
theorem dispatch_on_object_kind (o : Term) :
    (o.truthy = true → o.isLiteral = true →
      querySetsForObject (some o) = [Coll.literal]) ∧
    (o.truthy = true → o.isLiteral = false →
      querySetsForObject (some o) = [Coll.resource]) ∧
    (o.truthy = false → querySetsForObject (some o) = [Coll.resource, Coll.literal]) ∧
    querySetsForObject none = [Coll.resource, Coll.literal] ∧
    (∀ (σ : Store) (pat : Pat) (c : Option Term), pat.o = some o →
      o.truthy = true → o.isLiteral = true →
      σ.triples pat c = Store.triples { σ with statements := [] } pat c) ∧
    (∀ (σ : Store) (pat : Pat) (c : Option Term), pat.o = some o →
      o.truthy = true → o.isLiteral = false →
      σ.triples pat c = Store.triples { σ with literalStatements := [] } pat c) := by
  refine ⟨?_, ?_, ?_, rfl, ?_, ?_⟩
  · intro ht hl; simp [querySetsForObject, ht, hl]
  · intro ht hl; simp [querySetsForObject, ht, hl]
  · intro ht; simp [querySetsForObject, ht]
  · intro σ pat c hpo ht hl
    have hq : querySetsForObject (some o) = [Coll.literal] := by
      simp [querySetsForObject, ht, hl]
    unfold Store.triples
    have hctx : Store.getContextRef { σ with statements := ([] : List Stmt) } c
        = σ.getContextRef c := by cases c <;> rfl
    rw [hctx]
    cases hg : σ.getContextRef c with
    | none => rfl
    | some cref => simp [hpo, hq]
  · intro σ pat c hpo ht hl
    have hq : querySetsForObject (some o) = [Coll.resource] := by
      simp [querySetsForObject, ht, hl]
    unfold Store.triples
    have hctx : Store.getContextRef { σ with literalStatements := ([] : List Stmt) } c
        = σ.getContextRef c := by cases c <;> rfl
    rw [hctx]
    cases hg : σ.getContextRef c with
    | none => rfl
    | some cref => simp [hpo, hq]

/-- Witness for the amended C5 at a concrete non-empty literal. -/
theorem dispatch_on_object_kind_witness :
    querySetsForObject (some (Term.lit "a" none none)) = [Coll.literal] :=
  (dispatch_on_object_kind (Term.lit "a" none none)).1 (by decide) (by decide)

/-- C6 counterexample: with the absent bound context `uri "nope"`, `len` and
iterating `triples` raise `ContextRef.DoesNotExist` (rendered `none`) instead
of returning 0 / yielding nothing as the claim states. -/
theorem absent_context_read_counterexample :
    initStore.len (some (Term.uri "nope")) = none ∧
    initStore.len (some (Term.uri "nope")) ≠ some 0 ∧
    initStore.triples (Pat.mk none none none) (some (Term.uri "nope")) = none ∧
    initStore.triples (Pat.mk none none none) (some (Term.uri "nope")) ≠ some [] := by
  decide

/-- C6 (amended): for an absent bound context, `remove` is a silent no-op
(the `DoesNotExist` is caught), but `triples` and `len` do not catch it and
raise instead of returning an empty result / 0. -/
theorem absent_context_behaviour (σ : Store) (pat : Pat) (c : Term)
    (h : c ∉ σ.contextRefs) :
    σ.remove pat (some c) = σ ∧ σ.triples pat (some c) = none ∧
    σ.len (some c) = none := by
  have hg : σ.getContextRef (some c) = none := by simp [Store.getContextRef, h]
  refine ⟨?_, ?_, ?_⟩
  · unfold Store.remove; rw [hg]
  · unfold Store.triples; rw [hg]
  · unfold Store.len; rw [hg]

/-- Witness for the amended C6 at a concrete absent context. -/
theorem absent_context_behaviour_witness :
    (Term.uri "nope") ∉ initStore.contextRefs ∧
    initStore.remove (Pat.mk none none none) (some (Term.uri "nope")) = initStore ∧
    initStore.triples (Pat.mk none none none) (some (Term.uri "nope")) = none ∧
    initStore.len (some (Term.uri "nope")) = none :=
  ⟨by decide,
   (absent_context_behaviour initStore (Pat.mk none none none) (Term.uri "nope")
     (by decide)).1,
   (absent_context_behaviour initStore (Pat.mk none none none) (Term.uri "nope")
     (by decide)).2.1,
   (absent_context_behaviour initStore (Pat.mk none none none) (Term.uri "nope")
     (by decide)).2.2⟩

/-- C7 counterexample: context c2 holds no statement matching the supplied
triple, yet `contexts(triple)` still enumerates it — the triple argument is
ignored, refuting the claimed restriction. -/
theorem contexts_ignores_triple_counterexample :
    Term.uri "c2" ∈ ((initStore.add (Term.uri "s") (Term.uri "p") (Term.uri "o")
        (some (Term.uri "c1"))).add (Term.uri "s2") (Term.uri "p2") (Term.uri "o2")
        (some (Term.uri "c2"))).contexts
        (some (Term.uri "s", Term.uri "p", Term.uri "o")) ∧
    (((initStore.add (Term.uri "s") (Term.uri "p") (Term.uri "o")
        (some (Term.uri "c1"))).add (Term.uri "s2") (Term.uri "p2") (Term.uri "o2")
        (some (Term.uri "c2"))).statements ++
      ((initStore.add (Term.uri "s") (Term.uri "p") (Term.uri "o")
        (some (Term.uri "c1"))).add (Term.uri "s2") (Term.uri "p2") (Term.uri "o2")
        (some (Term.uri "c2"))).literalStatements).all
      (fun r => !(stmtMatchesSPO (Term.uri "s") (Term.uri "p") (Term.uri "o") r &&
        r.contextRefs.contains (Term.uri "c2"))) = true := by decide

/-- C7 (amended): `contexts` never inspects its triple argument — with or
without a triple it enumerates the identifiers of all known contexts,
including every context lazily created by `add`. -/
theorem contexts_enumerates_all (σ : Store) (topt : Option Triple) :
    σ.contexts topt = σ.contexts none ∧
    ∀ s p o c, c ∈ (σ.add s p o (some c)).contexts topt := by
  refine ⟨rfl, ?_⟩
  intro s p o c
  show c ∈ (σ.add s p o (some c)).contextRefs
  exact mem_contextRefs_add_self σ s p o c

end RdflibDjango

namespace RdflibDjango

lemma namespaces_remove (σ : Store) (pat : Pat) (c : Option Term) :
    (σ.remove pat c).namespaces = σ.namespaces := by
  unfold Store.remove; cases h : σ.getContextRef c <;> simp

lemma filterMap_removeStep_none (pat : Pat) (cref : Term) (rows : List Stmt) :
    rows.filterMap (removeStep pat none cref)
      = rows.filter (fun r => !(matchesPat pat r)) := by
  induction rows with
  | nil => rfl
  | cons r rest ih =>
    by_cases h : matchesPat pat r = true
    · simp [List.filterMap_cons, List.filter_cons, removeStep, ctxFilterOK, h, ih]
    · simp [List.filterMap_cons, List.filter_cons, removeStep, ctxFilterOK, h, ih]

lemma addColl_of_not_contains_res (o : Term)
    (h : (querySetsForObject (some o)).contains Coll.resource = false) :
    addColl o = Coll.literal := by
  cases ht : o.truthy <;> cases hl : o.isLiteral <;>
    simp_all [querySetsForObject, addColl_eq]

lemma addColl_of_not_contains_lit (o : Term)
    (h : (querySetsForObject (some o)).contains Coll.literal = false) :
    addColl o = Coll.resource := by
  cases ht : o.truthy <;> cases hl : o.isLiteral <;>
    simp_all [querySetsForObject, addColl_eq]

lemma object_eq_of_matchesPat (pat : Pat) (r : Stmt) (x : Term)
    (h : matchesPat pat r = true) (hpo : pat.o = some x) : r.object = x := by
  unfold matchesPat at h
  rw [hpo] at h
  simp only [Bool.and_eq_true] at h
  exact eq_of_beq h.2

/-- C10: remove with context None applies no context filter — on every state
whose rows sit in their dispatch collection, `remove(pattern, None)` deletes
every matching statement row store-wide (also rows belonging only to named
contexts), keeps every non-matching row, and touches neither the ContextRef
rows nor the namespace bindings. -/
theorem remove_none_deletes_store_wide (σ : Store) (pat : Pat) (hσ : Placed σ) :
    (σ.remove pat none).statements
      = σ.statements.filter (fun r => !(matchesPat pat r)) ∧
    (σ.remove pat none).literalStatements
      = σ.literalStatements.filter (fun r => !(matchesPat pat r)) ∧
    (σ.remove pat none).contextRefs = σ.contextRefs ∧
    (σ.remove pat none).namespaces = σ.namespaces := by
  refine ⟨?_, ?_, contextRefs_remove σ pat none, namespaces_remove σ pat none⟩
  · rw [statements_remove_of_ctx _ _ _ _ (getContextRef_none σ)]
    by_cases hc : (querySetsForObject pat.o).contains Coll.resource = true
    · rw [if_pos hc, filterMap_removeStep_none]
    · rw [if_neg hc]
      have hfb : (querySetsForObject pat.o).contains Coll.resource = false := by
        revert hc; cases (querySetsForObject pat.o).contains Coll.resource <;> simp
      cases hpo : pat.o with
      | none => rw [hpo] at hfb; simp [querySetsForObject] at hfb
      | some x =>
        rw [hpo] at hfb
        have hax : addColl x = Coll.literal := addColl_of_not_contains_res x hfb
        refine (List.filter_eq_self.mpr ?_).symm
        intro r hr
        cases hm : matchesPat pat r with
        | false => simp
        | true =>
          exfalso
          have hobj : r.object = x := object_eq_of_matchesPat pat r x hm hpo
          have hplaced := hσ.1 r hr
          rw [hobj, hax] at hplaced
          cases hplaced
  · rw [literalStatements_remove_of_ctx _ _ _ _ (getContextRef_none σ)]
    by_cases hc : (querySetsForObject pat.o).contains Coll.literal = true
    · rw [if_pos hc, filterMap_removeStep_none]
    · rw [if_neg hc]
      have hfb : (querySetsForObject pat.o).contains Coll.literal = false := by
        revert hc; cases (querySetsForObject pat.o).contains Coll.literal <;> simp
      cases hpo : pat.o with
      | none => rw [hpo] at hfb; simp [querySetsForObject] at hfb
      | some x =>
        rw [hpo] at hfb
        have hax : addColl x = Coll.resource := addColl_of_not_contains_lit x hfb
        refine (List.filter_eq_self.mpr ?_).symm
        intro r hr
        cases hm : matchesPat pat r with
        | false => simp
        | true =>
          exfalso
          have hobj : r.object = x := object_eq_of_matchesPat pat r x hm hpo
          have hplaced := hσ.2 r hr
          rw [hobj, hax] at hplaced
          cases hplaced

/-- Witness for C10: a statement added only to a named context is deleted by
`remove` with context None. -/
theorem remove_none_deletes_store_wide_witness :
    Placed (initStore.add (Term.uri "s") (Term.uri "p") (Term.uri "o")
      (some (Term.uri "c1"))) ∧
    ((initStore.add (Term.uri "s") (Term.uri "p") (Term.uri "o")
        (some (Term.uri "c1"))).remove (exactPat (Term.uri "s") (Term.uri "p") (Term.uri "o"))
        none).statements
      = (initStore.add (Term.uri "s") (Term.uri "p") (Term.uri "o")
          (some (Term.uri "c1"))).statements.filter
          (fun r => !(matchesPat (exactPat (Term.uri "s") (Term.uri "p") (Term.uri "o")) r)) :=
  ⟨by decide,
   (remove_none_deletes_store_wide
     (initStore.add (Term.uri "s") (Term.uri "p") (Term.uri "o") (some (Term.uri "c1")))
     (exactPat (Term.uri "s") (Term.uri "p") (Term.uri "o")) (by decide)).1⟩

end RdflibDjango

namespace RdflibDjango

lemma find?_append_of_none {α : Type} (p : α → Bool) (l1 l2 : List α)
    (h : l1.find? p = none) : (l1 ++ l2).find? p = l2.find? p := by
  induction l1 with
  | nil => rfl
  | cons a rest ih =>
    by_cases hpa : p a = true
    · rw [List.find?_cons_of_pos _ hpa] at h
      exact absurd h (by simp)
    · rw [List.find?_cons_of_neg _ hpa] at h
      rw [List.cons_append, List.find?_cons_of_neg _ hpa]
      exact ih h

lemma find?_fst_map_update (pfx uri : String) :
    ∀ l : List (String × String), l.any (fun ns => ns.1 == pfx) = true →
      (l.map (fun ns => if ns.1 == pfx then (pfx, uri) else ns)).find?
        (fun ns => ns.1 == pfx) = some (pfx, uri)
  | [], h => by simp at h
  | a :: rest, h => by
    rw [List.map_cons]
    by_cases ha : a.1 = pfx
    · have hga : (if a.1 == pfx then (pfx, uri) else a) = (pfx, uri) := by simp [ha]
      rw [hga]
      exact List.find?_cons_of_pos _ (by simp)
    · have hrest : rest.any (fun ns => ns.1 == pfx) = true := by
        simp only [List.any_cons] at h
        cases Bool.or_eq_true_iff.mp h with
        | inl h1 => exact absurd (eq_of_beq h1) ha
        | inr h1 => exact h1
      have hga : (if a.1 == pfx then (pfx, uri) else a) = a := by simp [ha]
      rw [hga, List.find?_cons_of_neg _ (by simp [ha])]
      exact find?_fst_map_update pfx uri rest hrest

lemma bind_unprotected_namespaces (σ : Store) (pfx uri : String)
    (hfree : DEFAULT_NAMESPACES.any (fun ns => ns.1 == pfx || ns.2 == uri) = false) :
    (σ.bind pfx uri).namespaces =
      if σ.namespaces.any (fun ns => ns.2 == uri && ns.1 != pfx) then
        (σ.namespaces.filter (fun ns => ns.1 != pfx && ns.2 != uri)) ++ [(pfx, uri)]
      else if σ.namespaces.any (fun ns => ns.1 == pfx) then
        σ.namespaces.map (fun ns => if ns.1 == pfx then (pfx, uri) else ns)
      else σ.namespaces ++ [(pfx, uri)] := by
  simp only [Store.bind, hfree, Bool.false_eq_true, if_false]
  by_cases h1 : σ.namespaces.any (fun ns => ns.2 == uri && ns.1 != pfx) = true
  · simp [h1]
  · by_cases h2 : σ.namespaces.any (fun ns => ns.1 == pfx) = true
    · simp [h1, h2]
    · simp [h1, h2]

/-- C8: bind contract — binding a protected default prefix or uri is a no-op,
and an unprotected bind removes any prior binding for the prefix or for the
uri and installs the new pair: afterwards `namespace(prefix)` is the new uri,
the uri displaced from this prefix resolves to the not-found sentinel, and the
prefix displaced from this uri resolves to the not-found sentinel. -/
theorem bind_replaces_bindings (σ : Store) (pfx uri : String)
    (hinv : NsInv σ)
    (hfree : DEFAULT_NAMESPACES.any (fun ns => ns.1 == pfx || ns.2 == uri) = false) :
    (σ.bind pfx uri).namespaceOf pfx = some uri ∧
    (∀ old, (pfx, old) ∈ σ.namespaces → old ≠ uri →
      (σ.bind pfx uri).prefixOf old = none) ∧
    (∀ p2, (p2, uri) ∈ σ.namespaces → p2 ≠ pfx →
      (σ.bind pfx uri).namespaceOf p2 = none) ∧
    (∀ q u, DEFAULT_NAMESPACES.any (fun ns => ns.1 == q || ns.2 == u) = true →
      σ.bind q u = σ) := by
  obtain ⟨hfst, hsnd⟩ := hinv
  have hnseq := bind_unprotected_namespaces σ pfx uri hfree
  refine ⟨?_, ?_, ?_, ?_⟩
  · unfold Store.namespaceOf
    rw [hnseq]
    by_cases h1 : σ.namespaces.any (fun ns => ns.2 == uri && ns.1 != pfx) = true
    · rw [if_pos h1]
      have hn : (σ.namespaces.filter (fun ns => ns.1 != pfx && ns.2 != uri)).find?
          (fun ns => ns.1 == pfx) = none := by
        rw [List.find?_eq_none]
        intro x hx hpx
        have hf := (List.mem_filter.mp hx).2
        simp only [Bool.and_eq_true, bne_iff_ne] at hf
        exact hf.1 (eq_of_beq hpx)
      rw [find?_append_of_none _ _ _ hn]
      simp [List.find?_cons]
    · rw [if_neg h1]
      by_cases h2 : σ.namespaces.any (fun ns => ns.1 == pfx) = true
      · rw [if_pos h2, find?_fst_map_update pfx uri σ.namespaces h2]
        rfl
      · rw [if_neg h2]
        have hn : σ.namespaces.find? (fun ns => ns.1 == pfx) = none := by
          rw [List.find?_eq_none]
          intro x hx hpx
          exact h2 (List.any_eq_true.mpr ⟨x, hx, hpx⟩)
        rw [find?_append_of_none _ _ _ hn]
        simp [List.find?_cons]
  · intro old hold hne
    unfold Store.prefixOf
    rw [hnseq]
    have hinj := List.inj_on_of_nodup_map hsnd
    by_cases h1 : σ.namespaces.any (fun ns => ns.2 == uri && ns.1 != pfx) = true
    · rw [if_pos h1]
      have hfind : ((σ.namespaces.filter (fun ns => ns.1 != pfx && ns.2 != uri))
          ++ [(pfx, uri)]).find? (fun ns => ns.2 == old) = none := by
        rw [List.find?_eq_none]
        intro x hx hpx
        have hxo : x.2 = old := eq_of_beq hpx
        rcases List.mem_append.mp hx with hx1 | hx2
        · obtain ⟨hxmem, hxf⟩ := List.mem_filter.mp hx1
          simp only [Bool.and_eq_true, bne_iff_ne] at hxf
          have hxeq : x = (pfx, old) := hinj hxmem hold (by simp [hxo])
          exact hxf.1 (by rw [hxeq])
        · have hxeq : x = (pfx, uri) := by simpa using hx2
          rw [hxeq] at hxo
          exact hne hxo.symm
      rw [hfind]; rfl
    · by_cases h2 : σ.namespaces.any (fun ns => ns.1 == pfx) = true
      · rw [if_neg h1, if_pos h2]
        have hfind : (σ.namespaces.map
            (fun ns => if ns.1 == pfx then (pfx, uri) else ns)).find?
            (fun ns => ns.2 == old) = none := by
          rw [List.find?_eq_none]
          intro x hx hpx
          have hxo : x.2 = old := eq_of_beq hpx
          obtain ⟨a, ha, hax⟩ := List.mem_map.mp hx
          by_cases hap : a.1 = pfx
          · have hxeq : x = (pfx, uri) := by rw [← hax]; simp [hap]
            rw [hxeq] at hxo
            exact hne hxo.symm
          · have hxeq : x = a := by rw [← hax]; simp [hap]
            rw [hxeq] at hxo
            have haeq : a = (pfx, old) := hinj ha hold (by simp [hxo])
            exact hap (by rw [haeq])
        rw [hfind]; rfl
      · exfalso
        exact h2 (List.any_eq_true.mpr ⟨(pfx, old), hold, by simp⟩)
  · intro p2 hp2 hne2
    unfold Store.namespaceOf
    rw [hnseq]
    have h1 : σ.namespaces.any (fun ns => ns.2 == uri && ns.1 != pfx) = true :=
      List.any_eq_true.mpr ⟨(p2, uri), hp2, by simp [hne2]⟩
    rw [if_pos h1]
    have hfind : ((σ.namespaces.filter (fun ns => ns.1 != pfx && ns.2 != uri))
        ++ [(pfx, uri)]).find? (fun ns => ns.1 == p2) = none := by
      rw [List.find?_eq_none]
      intro x hx hpx
      have hx1 : x.1 = p2 := eq_of_beq hpx
      rcases List.mem_append.mp hx with hxf | hxs
      · obtain ⟨hxmem, hxcond⟩ := List.mem_filter.mp hxf
        simp only [Bool.and_eq_true, bne_iff_ne] at hxcond
        have hinjf := List.inj_on_of_nodup_map hfst
        have hxeq : x = (p2, uri) := hinjf hxmem hp2 (by simp [hx1])
        exact hxcond.2 (by rw [hxeq])
      · have hxeq : x = (pfx, uri) := by simpa using hxs
        rw [hxeq] at hx1
        exact hne2 hx1.symm
    rw [hfind]; rfl
  · intro q u hq
    unfold Store.bind
    rw [if_pos hq]

/-- Witness for C8: rebinding prefix ns1 displaces its old uri. -/
theorem bind_replaces_bindings_witness :
    NsInv (initStore.bind "ns1" "http://a") ∧
    ((initStore.bind "ns1" "http://a").bind "ns1" "http://b").namespaceOf "ns1"
      = some "http://b" ∧
    ((initStore.bind "ns1" "http://a").bind "ns1" "http://b").prefixOf "http://a"
      = none :=
  ⟨by decide,
   (bind_replaces_bindings (initStore.bind "ns1" "http://a") "ns1" "http://b"
     (by decide) (by decide)).1,
   (bind_replaces_bindings (initStore.bind "ns1" "http://a") "ns1" "http://b"
     (by decide) (by decide)).2.1 "http://a" (by decide) (by decide)⟩

end RdflibDjango

namespace RdflibDjango

lemma caretFree_cons (a : Char) (rest : List Char) (h : caretFree (a :: rest) = true) :
    a ≠ '^' ∧ caretFree rest = true := by
  simp only [caretFree, List.all_cons, Bool.and_eq_true, bne_iff_ne] at h
  exact ⟨h.1, h.2⟩

lemma split2_caret_caret (rest : List Char) :
    split2 ('^' :: '^' :: rest) = [] :: split2 rest := by
  simp [split2]

lemma split2_no_caret (v : List Char) (h : caretFree v = true) : split2 v = [v] := by
  induction v with
  | nil => rfl
  | cons a rest ih =>
    obtain ⟨ha, hrest⟩ := caretFree_cons a rest h
    cases rest with
    | nil => rfl
    | cons b rest2 =>
      have hsp := ih hrest
      simp [split2, ha, hsp]

lemma split2_append_sep (v rest : List Char) (h : caretFree v = true) :
    split2 (v ++ '^' :: '^' :: rest) = v :: split2 rest := by
  induction v with
  | nil => simpa using split2_caret_caret rest
  | cons a v2 ih =>
    obtain ⟨ha, hv2⟩ := caretFree_cons a v2 h
    have ih2 := ih hv2
    cases v2 with
    | nil => simp [split2, ha, split2_caret_caret]
    | cons b v3 =>
      rw [List.cons_append] at ih2
      simp [split2, ha, ih2]

/-- C9 counterexample: the literal with lexical form "a" and an empty-string
language tag encodes to the same relational string as the language-less
literal, and decoding yields the language-less literal — absence is not kept
distinct from the empty string, so the round trip is not the identity. -/
theorem literal_roundtrip_counterexample :
    decodeLiteral (encodeLiteral (PyLiteral.mk ['a'] (some []) none))
      = some (PyLiteral.mk ['a'] none none) ∧
    PyLiteral.mk ['a'] none none ≠ PyLiteral.mk ['a'] (some []) none := by decide

/-- C9 (amended): the relational round trip of `LiteralField` is the identity
on every literal whose lexical form, language and datatype are free of the
caret character and whose language and datatype are absent or non-empty;
an empty-string language or datatype decodes back as absent, and a component
containing the `"^^"` separator corrupts the split. -/
theorem literal_roundtrip (l : PyLiteral) (h1 : caretFree l.lexical = true)
    (h2 : goodPiece l.language = true) (h3 : goodPiece l.datatype = true) :
    decodeLiteral (encodeLiteral l) = some l := by
  obtain ⟨lex, lang, dt⟩ := l
  have hlang : caretFree (pyOr lang) = true := by
    cases lang with
    | none => rfl
    | some s =>
      simp only [goodPiece, Bool.and_eq_true] at h2
      exact h2.1
  have hdt : caretFree (pyOr dt) = true := by
    cases dt with
    | none => rfl
    | some s =>
      simp only [goodPiece, Bool.and_eq_true] at h3
      exact h3.1
  have henc : encodeLiteral (PyLiteral.mk lex lang dt)
      = lex ++ '^' :: '^' :: (pyOr lang ++ '^' :: '^' :: pyOr dt) := by
    simp [encodeLiteral]
  rw [decodeLiteral, henc, split2_append_sep _ _ h1, split2_append_sep _ _ hlang,
    split2_no_caret _ hdt]
  have hol : orNone (pyOr lang) = lang := by
    cases lang with
    | none => rfl
    | some s =>
      simp only [goodPiece, Bool.and_eq_true] at h2
      have hs : s ≠ [] := by
        intro hcon
        rw [hcon] at h2
        exact absurd h2.2 (by simp)
      simp [pyOr, orNone, hs]
  have hod : orNone (pyOr dt) = dt := by
    cases dt with
    | none => rfl
    | some s =>
      simp only [goodPiece, Bool.and_eq_true] at h3
      have hs : s ≠ [] := by
        intro hcon
        rw [hcon] at h3
        exact absurd h3.2 (by simp)
      simp [pyOr, orNone, hs]
  simp [hol, hod]

/-- Witness for the amended C9 at a concrete language-tagged literal. -/
theorem literal_roundtrip_witness :
    caretFree ['a'] = true ∧ goodPiece (some ['e', 'n']) = true ∧
    goodPiece (none : Option (List Char)) = true ∧
    decodeLiteral (encodeLiteral (PyLiteral.mk ['a'] (some ['e', 'n']) none))
      = some (PyLiteral.mk ['a'] (some ['e', 'n']) none) :=
  ⟨by decide, by decide, by decide,
   literal_roundtrip (PyLiteral.mk ['a'] (some ['e', 'n']) none)
     (by decide) (by decide) (by decide)⟩

end RdflibDjango

namespace RdflibDjango

lemma spo_eq_of_match (s p o : Term) (r : Stmt) (h : stmtMatchesSPO s p o r = true) :
    spo r = (s, p, o) := by
  obtain ⟨h1, h2, h3⟩ := (stmtMatchesSPO_iff s p o r).mp h
  simp [spo, h1, h2, h3]

lemma ctxFilterOK_addCtx_mono (co : Option Term) (cref : Term) (r : Stmt)
    (h : ctxFilterOK co cref r = true) : ctxFilterOK co cref (addCtx cref r) = true := by
  simp only [ctxFilterOK, Bool.or_eq_true] at h ⊢
  rcases h with h | h
  · exact Or.inl h
  · exact Or.inr (contains_addCtx_mono _ _ _ h)

lemma ctxFilterOK_addCtx_self (co : Option Term) (cref : Term) (r : Stmt) :
    ctxFilterOK co cref (addCtx cref r) = true := by
  unfold ctxFilterOK
  rw [contains_addCtx_self]
  simp

lemma matchesPat_eq_patMatchesTriple (pat : Pat) (r : Stmt) :
    matchesPat pat r = patMatchesTriple pat (spo r) := rfl

lemma rowWitness_updateFirst (s p o cref : Term) (co : Option Term) :
    ∀ rows : List Stmt, rows.any (stmtMatchesSPO s p o) = true → ∀ t : Triple,
      ((∃ r ∈ updateFirst (stmtMatchesSPO s p o) (addCtx cref) rows,
          spo r = t ∧ ctxFilterOK co cref r = true)
        ↔ (∃ r ∈ rows, spo r = t ∧ ctxFilterOK co cref r = true) ∨ t = (s, p, o))
  | [], hany, t => by simp at hany
  | r :: rest, hany, t => by
    by_cases hm : stmtMatchesSPO s p o r = true
    · have hrows : updateFirst (stmtMatchesSPO s p o) (addCtx cref) (r :: rest)
          = addCtx cref r :: rest := by
        unfold updateFirst; rw [if_pos hm]
      rw [hrows]
      constructor
      · rintro ⟨r2, hr2, hspo, hctx⟩
        rcases List.mem_cons.mp hr2 with h | h
        · right
          rw [← hspo, h, spo_addCtx]
          exact spo_eq_of_match s p o r hm
        · exact Or.inl ⟨r2, List.mem_cons_of_mem _ h, hspo, hctx⟩
      · rintro (⟨r2, hr2, hspo, hctx⟩ | ht)
        · rcases List.mem_cons.mp hr2 with h | h
          · exact ⟨addCtx cref r, List.mem_cons_self _ _,
              by rw [spo_addCtx, ← h]; exact hspo,
              ctxFilterOK_addCtx_mono co cref r (h ▸ hctx)⟩
          · exact ⟨r2, List.mem_cons_of_mem _ h, hspo, hctx⟩
        · exact ⟨addCtx cref r, List.mem_cons_self _ _,
            by rw [spo_addCtx, ht]; exact spo_eq_of_match s p o r hm,
            ctxFilterOK_addCtx_self co cref r⟩
    · have hrows : updateFirst (stmtMatchesSPO s p o) (addCtx cref) (r :: rest)
          = r :: updateFirst (stmtMatchesSPO s p o) (addCtx cref) rest := by
        simp only [updateFirst]; rw [if_neg hm]
      have hrest : rest.any (stmtMatchesSPO s p o) = true := by
        simp only [List.any_cons] at hany
        cases Bool.or_eq_true_iff.mp hany with
        | inl h1 => exact absurd h1 hm
        | inr h1 => exact h1
      have ihr := rowWitness_updateFirst s p o cref co rest hrest t
      rw [hrows]
      constructor
      · rintro ⟨r2, hr2, hspo, hctx⟩
        rcases List.mem_cons.mp hr2 with h | h
        · exact Or.inl ⟨r2, by rw [h]; exact List.mem_cons_self _ _, hspo, hctx⟩
        · rcases ihr.mp ⟨r2, h, hspo, hctx⟩ with h2 | h2
          · obtain ⟨r3, hr3, h4, h5⟩ := h2
            exact Or.inl ⟨r3, List.mem_cons_of_mem _ hr3, h4, h5⟩
          · exact Or.inr h2
      · rintro (⟨r2, hr2, hspo, hctx⟩ | ht)
        · rcases List.mem_cons.mp hr2 with h | h
          · exact ⟨r2, by rw [h]; exact List.mem_cons_self _ _, hspo, hctx⟩
          · obtain ⟨r3, hr3, h4, h5⟩ := ihr.mpr (Or.inl ⟨r2, h, hspo, hctx⟩)
            exact ⟨r3, List.mem_cons_of_mem _ hr3, h4, h5⟩
        · obtain ⟨r3, hr3, h4, h5⟩ := ihr.mpr (Or.inr ht)
          exact ⟨r3, List.mem_cons_of_mem _ hr3, h4, h5⟩

lemma rowWitness_addToRows (s p o cref : Term) (co : Option Term) (rows : List Stmt)
    (t : Triple) :
    (∃ r ∈ addToRows s p o cref rows, spo r = t ∧ ctxFilterOK co cref r = true)
      ↔ (∃ r ∈ rows, spo r = t ∧ ctxFilterOK co cref r = true) ∨ t = (s, p, o) := by
  by_cases hany : rows.any (stmtMatchesSPO s p o) = true
  · have he : addToRows s p o cref rows
        = updateFirst (stmtMatchesSPO s p o) (addCtx cref) rows := by
      unfold addToRows; rw [if_pos hany]
    rw [he]
    exact rowWitness_updateFirst s p o cref co rows hany t
  · have he : addToRows s p o cref rows = rows ++ [Stmt.mk s p o [cref]] := by
      unfold addToRows; rw [if_neg hany]
    rw [he]
    constructor
    · rintro ⟨r, hr, hspo, hctx⟩
      rcases List.mem_append.mp hr with h | h
      · exact Or.inl ⟨r, h, hspo, hctx⟩
      · have hre : r = Stmt.mk s p o [cref] := by simpa using h
        right
        rw [← hspo, hre]
        rfl
    · rintro (⟨r, hr, hspo, hctx⟩ | ht)
      · exact ⟨r, List.mem_append.mpr (Or.inl hr), hspo, hctx⟩
      · refine ⟨Stmt.mk s p o [cref], List.mem_append.mpr (Or.inr (by simp)), ?_, ?_⟩
        · rw [ht]; rfl
        · simp [ctxFilterOK]

lemma collRows_add (σ : Store) (s p o : Term) (co : Option Term) (coll : Coll) :
    collRows (σ.add s p o co) coll =
      if addColl o = coll then addToRows s p o (resolveCtxId co) (collRows σ coll)
      else collRows σ coll := by
  cases coll with
  | resource =>
    have h := statements_add σ s p o co
    simpa [collRows] using h
  | literal =>
    have h := literalStatements_add σ s p o co
    simpa [collRows] using h

lemma rowWitness_add (σ : Store) (s p o : Term) (co : Option Term) (coll : Coll)
    (t : Triple) :
    (∃ r ∈ collRows (σ.add s p o co) coll,
        spo r = t ∧ ctxFilterOK co (resolveCtxId co) r = true)
      ↔ (∃ r ∈ collRows σ coll, spo r = t ∧ ctxFilterOK co (resolveCtxId co) r = true)
        ∨ (t = (s, p, o) ∧ addColl o = coll) := by
  rw [collRows_add]
  by_cases h : addColl o = coll
  · rw [if_pos h, rowWitness_addToRows]
    simp [h]
  · rw [if_neg h]
    simp [h]

lemma rowWitness_addAll (co : Option Term) (coll : Coll) :
    ∀ (ts : List Triple) (σ : Store) (t : Triple),
      ((∃ r ∈ collRows (addAll ts co σ) coll,
          spo r = t ∧ ctxFilterOK co (resolveCtxId co) r = true)
        ↔ (∃ r ∈ collRows σ coll, spo r = t ∧ ctxFilterOK co (resolveCtxId co) r = true)
          ∨ (t ∈ ts ∧ addColl t.2.2 = coll))
  | [], σ, t => by simp [addAll]
  | u :: ts, σ, t => by
    have hstep := rowWitness_add σ u.1 u.2.1 u.2.2 co coll t
    have hrec := rowWitness_addAll co coll ts (σ.add u.1 u.2.1 u.2.2 co) t
    rw [show addAll (u :: ts) co σ = addAll ts co (σ.add u.1 u.2.1 u.2.2 co) from rfl]
    rw [hrec, hstep]
    constructor
    · rintro ((h | h) | h)
      · exact Or.inl h
      · obtain ⟨ht, hc⟩ := h
        exact Or.inr ⟨by rw [ht]; exact List.mem_cons_self _ _, by rw [ht]; exact hc⟩
      · obtain ⟨hmem, hc⟩ := h
        exact Or.inr ⟨List.mem_cons_of_mem _ hmem, hc⟩
    · rintro (h | ⟨hmem, hc⟩)
      · exact Or.inl (Or.inl h)
      · rcases List.mem_cons.mp hmem with h | h
        · exact Or.inl (Or.inr ⟨h, by rw [← h]; exact hc⟩)
        · exact Or.inr ⟨h, hc⟩

lemma mem_ctx_addAll_mono (co : Option Term) (x : Term) :
    ∀ (ts : List Triple) (σ : Store), x ∈ σ.contextRefs →
      x ∈ (addAll ts co σ).contextRefs
  | [], _, h => h
  | _u :: ts, _σ, h =>
    mem_ctx_addAll_mono co x ts _ (mem_contextRefs_add_mono _ _ _ _ _ _ h)

lemma mem_ctx_addAll_self (x : Term) :
    ∀ (ts : List Triple) (σ : Store), ts ≠ [] →
      x ∈ (addAll ts (some x) σ).contextRefs
  | [], _, h => absurd rfl h
  | u :: ts, σ, _ =>
    mem_ctx_addAll_mono (some x) x ts _ (mem_contextRefs_add_self σ u.1 u.2.1 u.2.2 x)

lemma addColl_mem_colls (pat : Pat) (t : Triple) (h : patMatchesTriple pat t = true) :
    addColl t.2.2 ∈ querySetsForObject pat.o := by
  cases hpo : pat.o with
  | none => cases hcol : addColl t.2.2 <;> simp [querySetsForObject]
  | some x =>
    have hox : t.2.2 = x := by
      unfold patMatchesTriple at h
      rw [hpo] at h
      simp only [Bool.and_eq_true] at h
      exact eq_of_beq h.2
    rw [hox]
    cases ht : x.truthy <;> cases hl : x.isLiteral <;>
      simp [querySetsForObject, addColl_eq, ht, hl]

lemma triples_of_ctx (σ : Store) (pat : Pat) (co : Option Term) (cref : Term)
    (h : σ.getContextRef co = some cref) :
    σ.triples pat co = some
      (((if (querySetsForObject pat.o).contains Coll.resource then
          matchRows pat co cref σ.statements else []) ++
        (if (querySetsForObject pat.o).contains Coll.literal then
          matchRows pat co cref σ.literalStatements else [])).map spo) := by
  unfold Store.triples; rw [h]

end RdflibDjango

namespace RdflibDjango

/-- C4: Pattern completeness — starting from the empty store, after inserting
any set of triples into one context, `triples` queried with any pattern (each
of subject, predicate, object bound or wildcard, the exact triple included)
in that same context returns exactly the inserted triples agreeing with the
bound fields: no false negatives and no false positives. -/
theorem triples_pattern_complete (ts : List Triple) (co : Option Term) (pat : Pat)
    (t : Triple) :
    (t ∈ ((addAll ts co initStore).triples pat co).getD [])
      ↔ (t ∈ ts ∧ patMatchesTriple pat t = true) := by
  cases ts with
  | nil =>
    constructor
    · intro h
      exfalso
      cases co with
      | none =>
        simp [addAll, Store.triples, Store.getContextRef, matchRows, initStore] at h
      | some x =>
        cases hg : initStore.getContextRef (some x) with
        | none => simp [addAll, Store.triples, hg] at h
        | some cref =>
          simp [addAll, Store.triples, hg, matchRows,
            show initStore.statements = [] from rfl,
            show initStore.literalStatements = [] from rfl] at h
    · rintro ⟨hmem, _⟩
      exact absurd hmem (List.not_mem_nil t)
  | cons u us =>
    have hg : (addAll (u :: us) co initStore).getContextRef co
        = some (resolveCtxId co) := by
      cases co with
      | none => exact getContextRef_none _
      | some x =>
        exact getContextRef_some_of_mem _ _
          (mem_ctx_addAll_self x (u :: us) initStore (List.cons_ne_nil u us))
    rw [triples_of_ctx _ _ _ _ hg, Option.getD_some, List.mem_map]
    constructor
    · rintro ⟨r, hr, hspo⟩
      rcases List.mem_append.mp hr with hA | hB
      · by_cases hP : (querySetsForObject pat.o).contains Coll.resource = true
        · rw [if_pos hP] at hA
          unfold matchRows at hA
          obtain ⟨hrm, hcond⟩ := List.mem_filter.mp hA
          simp only [Bool.and_eq_true] at hcond
          have hp : patMatchesTriple pat t = true := by
            rw [← hspo, ← matchesPat_eq_patMatchesTriple]
            exact hcond.1
          have h2 := (rowWitness_addAll co Coll.resource (u :: us) initStore t).mp
            ⟨r, hrm, hspo, hcond.2⟩
          rcases h2 with habs | ⟨hmem, _⟩
          · exfalso
            obtain ⟨r0, hr0, _⟩ := habs
            simp [collRows, initStore] at hr0
          · exact ⟨hmem, hp⟩
        · rw [if_neg hP] at hA
          exact absurd hA (List.not_mem_nil r)
      · by_cases hP : (querySetsForObject pat.o).contains Coll.literal = true
        · rw [if_pos hP] at hB
          unfold matchRows at hB
          obtain ⟨hrm, hcond⟩ := List.mem_filter.mp hB
          simp only [Bool.and_eq_true] at hcond
          have hp : patMatchesTriple pat t = true := by
            rw [← hspo, ← matchesPat_eq_patMatchesTriple]
            exact hcond.1
          have h2 := (rowWitness_addAll co Coll.literal (u :: us) initStore t).mp
            ⟨r, hrm, hspo, hcond.2⟩
          rcases h2 with habs | ⟨hmem, _⟩
          · exfalso
            obtain ⟨r0, hr0, _⟩ := habs
            simp [collRows, initStore] at hr0
          · exact ⟨hmem, hp⟩
        · rw [if_neg hP] at hB
          exact absurd hB (List.not_mem_nil r)
    · rintro ⟨hmem, hp⟩
      obtain ⟨r, hr, hspo, hctx⟩ :=
        (rowWitness_addAll co (addColl t.2.2) (u :: us) initStore t).mpr
          (Or.inr ⟨hmem, rfl⟩)
      have hcolls := addColl_mem_colls pat t hp
      have hcondr : (matchesPat pat r && ctxFilterOK co (resolveCtxId co) r) = true := by
        simp only [Bool.and_eq_true]
        refine ⟨?_, hctx⟩
        rw [matchesPat_eq_patMatchesTriple, hspo]
        exact hp
      cases hac : addColl t.2.2 with
      | resource =>
        rw [hac] at hr hcolls
        have hP : (querySetsForObject pat.o).contains Coll.resource = true := by
          simp [hcolls]
        refine ⟨r, List.mem_append.mpr (Or.inl ?_), hspo⟩
        rw [if_pos hP]
        unfold matchRows
        exact List.mem_filter.mpr ⟨hr, hcondr⟩
      | literal =>
        rw [hac] at hr hcolls
        have hP : (querySetsForObject pat.o).contains Coll.literal = true := by
          simp [hcolls]
        refine ⟨r, List.mem_append.mpr (Or.inr ?_), hspo⟩
        rw [if_pos hP]
        unfold matchRows
        exact List.mem_filter.mpr ⟨hr, hcondr⟩

end RdflibDjango
